import Mathlib

set_option allowUnsafeReducibility true

attribute [semireducible] Rat.add Rat.sub Rat.neg Rat.mul Rat.inv Rat.div Rat.ofScientific

/-!
# Verification of the bcxbot currency core

Shallow embedding of the currency-input parsing and rate-extraction core of
the bot (`bot/handlers.py` and `bot/xe_parser.py`).

Modelling conventions:

* Python `float` values are modelled as exact rationals (`ℚ`); Python's
  `round(x, n)` (round-half-even) is `pyRound`.
* Strings are modelled over their ASCII character ranges: `str.upper`,
  `str.isalpha`, `str.isdigit`, and the regex classes `\d`, `\s`,
  `[A-Za-z]` are interpreted on ASCII code points, matching every input
  exercised by the bot's commands.
* `float(s)` is modelled at two levels: `pyFloatCore` accepts the plain
  decimal literal forms (optional sign, integer/fraction digits,
  optional dot) with exact values in `ℚ`, and `pyFloatFull` extends it
  with the `inf`/`infinity`/`nan` literal forms, whose IEEE values leak
  into the rate-multiplier arithmetic (`1/(1 + |-inf|/100) = 0.0`).
  The multiplier-positivity analysis uses the extended level.  Exponent
  and underscore literal forms are outside both levels; they denote
  finite decimal values, so they cannot change any claim settled here.
* `random.randint(1, 10000)` in `parse_currency_input` is modelled by an
  explicit parameter `randAmount`.
* The external collaborators (telegram transport, urlbox screenshot
  service, aiohttp image download, and the trafilatura text extraction in
  `parse_XE_rates`) are modelled as inputs: `parse_XE_rates` takes the
  extracted clean text, and `fetch_XE_rates` takes the collaborator's
  page text and the image download result.
-/

deriving instance DecidableEq for Except

/-! ## Character classes (ASCII) -/

/-- ASCII decimal digit, the `\d` class and `str.isdigit` element test. -/
def isDigitChar (c : Char) : Bool :=
  48 ≤ c.toNat && c.toNat ≤ 57

/-- ASCII letter, the `[A-Za-z]` class and `str.isalpha` element test. -/
def isAlphaChar (c : Char) : Bool :=
  (65 ≤ c.toNat && c.toNat ≤ 90) || (97 ≤ c.toNat && c.toNat ≤ 122)

/-- ASCII whitespace, the `\s` class: space, tab, LF, VT, FF, CR. -/
def isWsChar (c : Char) : Bool :=
  c.toNat = 32 || c.toNat = 9 || c.toNat = 10 || c.toNat = 11 ||
    c.toNat = 12 || c.toNat = 13

/-- ASCII upper-casing of one character, as in `str.upper`. -/
def pyUpperChar (c : Char) : Char :=
  if 97 ≤ c.toNat ∧ c.toNat ≤ 122 then Char.ofNat (c.toNat - 32) else c

/-- `s.upper()` on ASCII strings. -/
def upperStr (s : String) : String :=
  ⟨s.data.map pyUpperChar⟩

/-- `s.isalpha()`: non-empty and all characters alphabetic. -/
def pyIsAlpha (s : String) : Bool :=
  !s.data.isEmpty && s.data.all isAlphaChar

/-- `s.isdigit()` on a character list: non-empty and all decimal digits. -/
def pyIsDigitL (cs : List Char) : Bool :=
  !cs.isEmpty && cs.all isDigitChar

/-- `s.isdigit()`: non-empty and all characters decimal digits. -/
def pyIsDigit (s : String) : Bool :=
  pyIsDigitL s.data

/-! ## Python `float()` on decimal literals -/

/-- Value of a digit string read in base 10, as by `int`/`float` on an
all-digit string. -/
def digitsToNat (cs : List Char) : ℕ :=
  cs.foldl (fun a c => 10 * a + (c.toNat - 48)) 0

/-- Unsigned part of a Python float literal: `digits`, `digits.digits`,
`digits.` or `.digits`, consuming the whole input. -/
def parseUnsigned (cs : List Char) : Option ℚ :=
  let ip := cs.takeWhile isDigitChar
  match cs.dropWhile isDigitChar with
  | [] => if ip.isEmpty then none else some (digitsToNat ip : ℚ)
  | c :: r2 =>
    if c = '.' then
      let fp := r2.takeWhile isDigitChar
      if !(r2.dropWhile isDigitChar).isEmpty then none
      else if ip.isEmpty && fp.isEmpty then none
      else some ((digitsToNat ip : ℚ) + (digitsToNat fp : ℚ) / 10 ^ fp.length)
    else none

/-- `float(s)` on decimal literals: one optional leading sign, then an
unsigned decimal literal. Returns `none` where `float` raises
`ValueError`. -/
def pyFloatCore : List Char → Option ℚ
  | [] => none
  | x :: t =>
    if x = '+' then parseUnsigned t
    else if x = '-' then (parseUnsigned t).map (fun q => -q)
    else parseUnsigned (x :: t)

/-! ## Python round-half-even and string stripping -/

/-- Round to the nearest integer, ties to even: the rounding used by
Python's `round` and `format`. -/
def roundHalfEven (x : ℚ) : ℤ :=
  let f : ℤ := Rat.floor x
  let r : ℚ := x - (f : ℚ)
  if r < (1 : ℚ) / 2 then f
  else if (1 : ℚ) / 2 < r then f + 1
  else if f % 2 = 0 then f else f + 1

/-- Python `round(x, n)` on exact rationals. -/
def pyRound (x : ℚ) (n : ℕ) : ℚ :=
  (roundHalfEven (x * 10 ^ n) : ℚ) / 10 ^ n

/-- `s.lstrip(c)` for a single strip character: remove every leading `c`. -/
def lstripAll (c : Char) : List Char → List Char
  | [] => []
  | x :: t => if x = c then lstripAll c t else x :: t

/-- `s.rstrip(c)` for a single strip character: remove every trailing `c`. -/
def rstripAll (c : Char) (cs : List Char) : List Char :=
  (lstripAll c cs.reverse).reverse

/-- Remove at most one leading `c` (the spec's reading of "strips a
leading `c`"). -/
def dropLeadOne (c : Char) : List Char → List Char
  | [] => []
  | x :: t => if x = c then t else x :: t

/-- Remove at most one trailing `c`. -/
def dropTrailOne (c : Char) (cs : List Char) : List Char :=
  (dropLeadOne c cs.reverse).reverse

/-- `s.replace(old, new, 1)` with `new = ""`: remove the first occurrence
of `c`. -/
def removeFirst (c : Char) : List Char → List Char
  | [] => []
  | x :: t => if x = c then t else x :: removeFirst c t

/-- `s.startswith(c)` for one character. -/
def headIs (cs : List Char) (c : Char) : Bool :=
  match cs with
  | [] => false
  | x :: _ => x = c

/-- `s.endswith(c)` for one character. -/
def lastIs (cs : List Char) (c : Char) : Bool :=
  headIs cs.reverse c

/-! ## `parse_currency_input` (bot/handlers.py, lines 125-194) -/

/-- Result tuple of `parse_currency_input`:
`(amount, from_currency, to_currency, rate_adjustment)`. -/
structure CurrencyParse where
  amount : ℚ
  from_currency : String
  to_currency : String
  rate_adjustment : ℚ
deriving DecidableEq

/-- The defaults set before any token is examined: random amount,
`from = base`, `to = "USD"` unless the base is USD (then `"EUR"`), and
multiplier 1. -/
def initState (randAmount : ℕ) (base_currency : String) : CurrencyParse :=
  { amount := (randAmount : ℚ)
    from_currency := base_currency
    to_currency := if base_currency ≠ "USD" then "USD" else "EUR"
    rate_adjustment := 1 }

/-- Rate-adjustment shape test for an (upper-cased) extra token:
starts with `R`, `+` or `-`, ends with `%`, or is all digits after
removing at most one dot (`arg.replace('.', '', 1).isdigit()`). -/
def qualifiesRate (s : String) : Bool :=
  headIs s.data 'R' || headIs s.data '+' || headIs s.data '-' ||
    lastIs s.data '%' || pyIsDigitL (removeFirst '.' s.data)

/-- The code's stripping of a rate token:
`arg.lstrip('R').lstrip('+').rstrip('%')` (each removes a whole run). -/
def codeStripRate (cs : List Char) : List Char :=
  rstripAll '%' (lstripAll '+' (lstripAll 'R' cs))

/-- The spec's description of the stripping: one leading `R`, then one
leading `+`, then one trailing `%`. -/
def claimStrip (cs : List Char) : List Char :=
  dropTrailOne '%' (dropLeadOne '+' (dropLeadOne 'R' cs))

/-- Processing of one extra token (`args[1:]` loop, lines 167-189):
a token of rate-adjustment shape updates the multiplier when its stripped
remainder parses as a float (`ValueError` is swallowed, leaving the state
unchanged); otherwise a 3-letter alphabetic token overwrites
`to_currency`; anything else is ignored. -/
def processExtraToken (st : CurrencyParse) (tok : String) : CurrencyParse :=
  let arg := upperStr tok
  if qualifiesRate arg then
    match pyFloatCore (codeStripRate arg.data) with
    | some rate_value =>
      { st with rate_adjustment :=
          if 0 ≤ rate_value then 1 + rate_value / 100
          else 1 / (1 + |rate_value| / 100) }
    | none => st
  else if arg.data.length = 3 ∧ pyIsAlpha arg then
    { st with to_currency := arg }
  else st

/-- `input_text[-3:]` under the `len ≥ 3` guard. -/
def lastThreeL (cs : List Char) : List Char :=
  cs.drop (cs.length - 3)

/-- `input_text[:-3]` under the `len ≥ 3` guard. -/
def dropLastThreeL (cs : List Char) : List Char :=
  cs.take (cs.length - 3)

/-- Classification of the first token (lines 143-164): a bare 3-letter
code sets `to_currency`; a digit-prefixed code of length ≥ 3 sets amount,
`from_currency` and `to_currency = base`; an all-digit token sets the
amount; anything else is ignored. -/
def processFirstToken (base_currency : String) (st : CurrencyParse)
    (tok : String) : CurrencyParse :=
  let input_text := upperStr tok
  if input_text.data.length = 3 ∧ pyIsAlpha input_text then
    { st with to_currency := input_text }
  else if 3 ≤ input_text.data.length ∧
      pyIsAlpha ⟨lastThreeL input_text.data⟩ then
    if pyIsDigit ⟨dropLastThreeL input_text.data⟩ then
      { st with amount := (digitsToNat (dropLastThreeL input_text.data) : ℚ)
                from_currency := ⟨lastThreeL input_text.data⟩
                to_currency := base_currency }
    else st
  else if pyIsDigit input_text then
    { st with amount := (digitsToNat input_text.data : ℚ) }
  else st

/-- `parse_currency_input(args, base_currency)` with the call to
`random.randint(1, 10000)` exposed as `randAmount`. -/
def parse_currency_input (randAmount : ℕ) (args : List String)
    (base_currency : String) : CurrencyParse :=
  let st := initState randAmount base_currency
  match args with
  | [] => st
  | a0 :: rest =>
    rest.foldl processExtraToken (processFirstToken base_currency st a0)

/-! ## `adjust_amount` (bot/handlers.py, lines 197-201) -/

/-- `adjust_amount(amount, rate_adjustment)`: round the product to two
decimals for positive amounts, pass non-positive amounts through. -/
def adjust_amount (amount : ℚ) (rate_adjustment : ℚ := 1) : ℚ :=
  if 0 < amount then pyRound (amount * rate_adjustment) 2 else amount

/-! ## The rate multiplier with IEEE special values

`float()` also accepts the literal forms `inf`, `infinity` and `nan`
(with an optional sign; the call site upper-cases the token first, so
only the upper-case spellings can reach it).  A rate token such as
`"-INF"` therefore parses, and the multiplier arithmetic
`1 + v/100 if v >= 0 else 1/(1 + abs(v)/100)` runs on IEEE specials:
`1 + inf/100 = inf`, `1/(1 + |-inf|/100) = 1/inf = 0.0` exactly, and
`nan` propagates.  `PyFloat` adds these values to the rational model and
`parse_currency_inputX` is `parse_currency_input` with the extended
parsing; it is the model on which the multiplier-positivity claim is
settled. -/

/-- A Python float value: a finite rational or one of the IEEE special
values produced by the `inf`/`nan` literal forms. -/
inductive PyFloat where
  | finite : ℚ → PyFloat
  | inf : PyFloat
  | neginf : PyFloat
  | nan : PyFloat
deriving DecidableEq

/-- Negation, with `-inf`/`-nan` following IEEE (`-nan` is a nan). -/
def PyFloat.neg : PyFloat → PyFloat
  | PyFloat.finite q => PyFloat.finite (-q)
  | PyFloat.inf => PyFloat.neginf
  | PyFloat.neginf => PyFloat.inf
  | PyFloat.nan => PyFloat.nan

/-- Unsigned part of `float(s)` including the special literal forms
`INF`, `INFINITY` and `NAN`. -/
def pyUnsignedFull (cs : List Char) : Option PyFloat :=
  if cs = ['I', 'N', 'F'] ∨ cs = ['I', 'N', 'F', 'I', 'N', 'I', 'T', 'Y'] then
    some PyFloat.inf
  else if cs = ['N', 'A', 'N'] then some PyFloat.nan
  else (parseUnsigned cs).map PyFloat.finite

/-- `float(s)` including the `inf`/`nan` forms: one optional sign, then
an unsigned decimal literal or a special form. -/
def pyFloatFull : List Char → Option PyFloat
  | [] => none
  | x :: t =>
    if x = '+' then pyUnsignedFull t
    else if x = '-' then (pyUnsignedFull t).map PyFloat.neg
    else pyUnsignedFull (x :: t)

/-- The multiplier update
`1 + rate_value/100 if rate_value >= 0 else 1/(1 + abs(rate_value)/100)`
evaluated with IEEE semantics on the specials: `+inf >= 0` holds, so it
gives `1 + inf/100 = inf`; `-inf` falls to the second branch and gives
`1/(1 + inf/100) = 1/inf = 0.0` exactly; `nan >= 0` is false and
`1/(1 + nan/100)` is again `nan`. -/
def applyRateFull : PyFloat → PyFloat
  | PyFloat.finite v =>
    PyFloat.finite (if 0 ≤ v then 1 + v / 100 else 1 / (1 + |v| / 100))
  | PyFloat.inf => PyFloat.inf
  | PyFloat.neginf => PyFloat.finite 0
  | PyFloat.nan => PyFloat.nan

/-- Holds of a rate token's parse result when it cannot drag the
multiplier out of the positive finite range: the parse either fails
(the token is ignored) or yields a finite value. -/
def finiteOrFails : Option PyFloat → Bool
  | some (PyFloat.finite _) => true
  | none => true
  | some PyFloat.inf => false
  | some PyFloat.neginf => false
  | some PyFloat.nan => false

/-- `parse_currency_input`'s result with the multiplier in the extended
float domain. -/
structure CurrencyParseX where
  amount : ℚ
  from_currency : String
  to_currency : String
  rate_adjustment : PyFloat
deriving DecidableEq

/-- The defaults of `parse_currency_input`, extended domain. -/
def initStateX (randAmount : ℕ) (base_currency : String) : CurrencyParseX :=
  { amount := (randAmount : ℚ)
    from_currency := base_currency
    to_currency := if base_currency ≠ "USD" then "USD" else "EUR"
    rate_adjustment := PyFloat.finite 1 }

/-- Processing of one extra token (lines 167-189) with `float()`'s
`inf`/`nan` forms included. -/
def processExtraTokenX (st : CurrencyParseX) (tok : String) : CurrencyParseX :=
  let arg := upperStr tok
  if qualifiesRate arg then
    match pyFloatFull (codeStripRate arg.data) with
    | some rate_value => { st with rate_adjustment := applyRateFull rate_value }
    | none => st
  else if arg.data.length = 3 ∧ pyIsAlpha arg then
    { st with to_currency := arg }
  else st

/-- Classification of the first token (lines 143-164), extended domain
(the branches never touch the multiplier). -/
def processFirstTokenX (base_currency : String) (st : CurrencyParseX)
    (tok : String) : CurrencyParseX :=
  let input_text := upperStr tok
  if input_text.data.length = 3 ∧ pyIsAlpha input_text then
    { st with to_currency := input_text }
  else if 3 ≤ input_text.data.length ∧
      pyIsAlpha ⟨lastThreeL input_text.data⟩ then
    if pyIsDigit ⟨dropLastThreeL input_text.data⟩ then
      { st with amount := (digitsToNat (dropLastThreeL input_text.data) : ℚ)
                from_currency := ⟨lastThreeL input_text.data⟩
                to_currency := base_currency }
    else st
  else if pyIsDigit input_text then
    { st with amount := (digitsToNat input_text.data : ℚ) }
  else st

/-- `parse_currency_input(args, base_currency)` with the multiplier in
the extended float domain. -/
def parse_currency_inputX (randAmount : ℕ) (args : List String)
    (base_currency : String) : CurrencyParseX :=
  let st := initStateX randAmount base_currency
  match args with
  | [] => st
  | a0 :: rest =>
    rest.foldl processExtraTokenX (processFirstTokenX base_currency st a0)

/-! ## `parse_XE_rates` (bot/xe_parser.py)

The function strips markup with trafilatura (the external text-extraction
collaborator), then searches the clean text with

  `(\d{1,3}(?:,\d{3})*|\d+)\.\d+\s+[A-Za-z\s]+=\s*(\d{1,3}(?:,\d{3})*|\d+)\.\d+\s+[A-Za-z\s]+`

(first, leftmost match, Python backtracking semantics), strips every
character of `group(0)` except digits, `.` and `=`, splits on `=`, parses
the two parts as floats and returns `round(to/from, 7)`.  Every failure
is re-raised as `ValueError("Failed to parse exchange rate: ...")`; the
model takes the collaborator's clean text as input and returns `Except`.
-/

/-- Consume the maximal run of thousands groups `(?:,\d{3})*`: each step
takes a comma followed by three digits.  Returns the consumed prefix and
the rest. -/
def chainGroups : List Char → List Char × List Char
  | x :: a :: b :: c :: rest =>
    if x = ',' ∧ isDigitChar a ∧ isDigitChar b ∧ isDigitChar c then
      let p := chainGroups rest
      (x :: a :: b :: c :: p.1, p.2)
    else ([], x :: a :: b :: c :: rest)
  | l => ([], l)

/-- Match `(\d{1,3}(?:,\d{3})*|\d+)\.\d+` at the head of the input, with
the regex engine's priorities: the grouped branch is viable only for an
initial digit run of length ≤ 3 and demands the dot right after the
maximal group chain; otherwise the plain branch demands the dot right
after the digit run.  Returns the consumed text and the rest. -/
def parseNumToken (cs : List Char) : Option (List Char × List Char) :=
  let ds := cs.takeWhile isDigitChar
  if ds.isEmpty then none
  else
    let afterD := cs.dropWhile isDigitChar
    let b1 :=
      if ds.length ≤ 3 then
        let gp := chainGroups afterD
        match gp.2 with
        | c :: r2 =>
          if c = '.' then
            let fs := r2.takeWhile isDigitChar
            if fs.isEmpty then none
            else some (ds ++ gp.1 ++ '.' :: fs, r2.dropWhile isDigitChar)
          else none
        | [] => none
      else none
    match b1 with
    | some x => some x
    | none =>
      match afterD with
      | c :: r2 =>
        if c = '.' then
          let fs := r2.takeWhile isDigitChar
          if fs.isEmpty then none
          else some (ds ++ '.' :: fs, r2.dropWhile isDigitChar)
        else none
      | [] => none

/-- The `[A-Za-z\s]` class of the XE pattern. -/
def isClassChar (c : Char) : Bool :=
  isAlphaChar c || isWsChar c

/-- Head-is-whitespace test for a run. -/
def headWs (cs : List Char) : Bool :=
  match cs with
  | [] => false
  | c :: _ => isWsChar c

/-- Match `\s+[A-Za-z\s]+=` at the head of the input: since `=` is not in
the class, the run of class characters must start with whitespace, have
length ≥ 2 and be followed immediately by `=`.  Returns the consumed text
(run plus `=`) and the rest. -/
def matchWordEq (cs : List Char) : Option (List Char × List Char) :=
  let run := cs.takeWhile isClassChar
  match cs.dropWhile isClassChar with
  | x :: r =>
    if x = '=' ∧ 2 ≤ run.length ∧ headWs run then some (run ++ [x], r)
    else none
  | [] => none

/-- Match the trailing `\s+[A-Za-z\s]+` greedily: the maximal class run,
starting with whitespace, of length ≥ 2. -/
def matchTrailingWords (cs : List Char) : Option (List Char × List Char) :=
  let run := cs.takeWhile isClassChar
  if 2 ≤ run.length ∧ headWs run then some (run, cs.dropWhile isClassChar)
  else none

/-- Match the whole XE pattern at the head of the input, returning
`group(0)`. -/
def matchAt (cs : List Char) : Option (List Char) :=
  match parseNumToken cs with
  | none => none
  | some (n1, r1) =>
    match matchWordEq r1 with
    | none => none
    | some (w1, r2) =>
      let sp := r2.takeWhile isWsChar
      let r3 := r2.dropWhile isWsChar
      match parseNumToken r3 with
      | none => none
      | some (n2, r4) =>
        match matchTrailingWords r4 with
        | none => none
        | some (w2, _) => some (n1 ++ w1 ++ sp ++ n2 ++ w2)

/-- `re.search`: the match at the leftmost starting position. -/
def regexSearch (cs : List Char) : Option (List Char) :=
  match matchAt cs with
  | some m => some m
  | none =>
    match cs with
    | [] => none
    | _ :: t => regexSearch t

/-- Keep digits, `.` and `=`: the complement of `re.sub(r"[^0-9.=]", "", s)`. -/
def keepChar (c : Char) : Bool :=
  isDigitChar c || c == '.' || c == '='

/-- `re.sub(r"[^0-9.=]", "", s)` on the matched text. -/
def stripKeep (cs : List Char) : List Char :=
  cs.filter keepChar

/-- `s.split('=')` on a character list (Python `str.split` with explicit
separator: `n` separators yield `n+1` parts, possibly empty). -/
def splitEqL : List Char → List (List Char)
  | [] => [[]]
  | c :: t =>
    if c = '=' then [] :: splitEqL t
    else
      match splitEqL t with
      | [] => [[c]]
      | h :: r => (c :: h) :: r

/-- `parse_XE_rates` on the clean text extracted by the collaborator
(empty text models trafilatura returning nothing). -/
def parse_XE_rates (clean_text : String) : Except String ℚ :=
  if clean_text.data.isEmpty then
    Except.error "Failed to parse exchange rate: Failed to extract clean text from HTML"
  else
    match regexSearch clean_text.data with
    | none =>
      Except.error "Failed to parse exchange rate: Could not find currency amounts in the text"
    | some m =>
      match splitEqL (stripKeep m) with
      | [a1, a2] =>
        match pyFloatCore a1, pyFloatCore a2 with
        | some from_amount, some to_amount =>
          if from_amount ≤ 0 then
            Except.error "Failed to parse exchange rate: Source amount must be greater than 0"
          else Except.ok (pyRound (to_amount / from_amount) 7)
        | _, _ =>
          Except.error "Failed to parse exchange rate: could not convert string to float"
      | _ =>
        Except.error "Failed to parse exchange rate: Invalid amount format"

/-! ## Caption formatting and `fetch_XE_rates` (bot/handlers.py, lines 204-257) -/

/-- Digits of a natural number (fuel-based so that it reduces in the
kernel). -/
def natToCharsAux : ℕ → ℕ → List Char
  | 0, _ => []
  | fuel + 1, n =>
    if n = 0 then []
    else natToCharsAux fuel (n / 10) ++ [Char.ofNat (48 + n % 10)]

/-- Decimal digit string of a natural number. -/
def natToChars (n : ℕ) : List Char :=
  if n = 0 then ['0'] else natToCharsAux (n + 1) n

/-- Pad a digit string with leading zeros to width `n`. -/
def padZeros (cs : List Char) (n : ℕ) : List Char :=
  List.replicate (n - cs.length) '0' ++ cs

/-- Insert a thousands separator every three characters, counted from the
right; input and output are reversed digit strings. -/
def group3Rev : List Char → List Char
  | a :: b :: c :: d :: rest => a :: b :: c :: ',' :: group3Rev (d :: rest)
  | l => l

/-- Integer and fraction digits of `|scaled|` at `prec` decimals. -/
def fixedCore (scaled : ℤ) (prec : ℕ) : String :=
  let a := scaled.natAbs
  ⟨natToChars (a / 10 ^ prec)⟩ ++ "." ++ ⟨padZeros (natToChars (a % 10 ^ prec)) prec⟩

/-- Python `"%.Nf"`-style fixed formatting (`{rate:.7f}`) on exact
rationals.  (ℚ has no negative zero, so a value that rounds to zero
prints unsigned.) -/
def formatFixed (x : ℚ) (prec : ℕ) : String :=
  let scaled := roundHalfEven (x * 10 ^ prec)
  (if scaled < 0 then "-" else "") ++ fixedCore scaled prec

/-- Python `"{:+.1f}"`-style always-signed fixed formatting. -/
def formatSigned (x : ℚ) (prec : ℕ) : String :=
  let scaled := roundHalfEven (x * 10 ^ prec)
  (if scaled < 0 then "-" else "+") ++ fixedCore scaled prec

/-- Python `"{:,.2f}"`-style formatting: fixed decimals with thousands
separators in the integer part. -/
def formatComma (x : ℚ) (prec : ℕ) : String :=
  let scaled := roundHalfEven (x * 10 ^ prec)
  let a := scaled.natAbs
  (if scaled < 0 then "-" else "") ++
    ⟨(group3Rev (natToChars (a / 10 ^ prec)).reverse).reverse⟩ ++
    "." ++ ⟨padZeros (natToChars (a % 10 ^ prec)) prec⟩

/-- The caption built before rate extraction (lines 230-237): bold header,
optional rate-adjustment line, timestamp line.  The timestamp
(`datetime.now`) is passed in. -/
def captionBase (from_currency to_currency : String) (amount : ℚ)
    (rate_adjustment : ℚ) (timestamp : String) : String :=
  let head := "<b>" ++ formatComma amount 2 ++ " " ++ from_currency ++ " ➔ " ++
    to_currency ++ "</b>"
  let withAdj :=
    if rate_adjustment ≠ 1 then
      head ++ "\n📊 Rate adjustment: " ++
        formatSigned ((rate_adjustment - 1) * 100) 1 ++ "%"
    else head
  withAdj ++ "\n\nXE Rate, " ++ timestamp

/-- The two rate lines appended on successful extraction of a positive
rate (lines 243-244). -/
def rateLines (from_currency to_currency : String) (rate : ℚ) : String :=
  "\n1 " ++ from_currency ++ " = " ++ formatFixed rate 7 ++ " " ++ to_currency ++
    "\n1 " ++ to_currency ++ " = " ++ formatFixed (1 / rate) 7 ++ " " ++ from_currency

/-- `fetch_XE_rates`: the screenshot render is external, so the model
takes the collaborator's page text (`html_data`) and the image download
result (`none` models a non-200 download, which raises).  The caption
gains the two rate lines only when extraction succeeds with a positive
rate; a `ValueError` from extraction is swallowed. -/
def fetch_XE_rates (from_currency to_currency : String) (amount : ℚ)
    (rate_adjustment : ℚ) (html_data : String) (timestamp : String)
    (image_download : Option (List Nat)) : Except String (List Nat × String) :=
  let caption := captionBase from_currency to_currency amount rate_adjustment timestamp
  let caption :=
    match parse_XE_rates html_data with
    | Except.ok rate =>
      if 0 < rate then caption ++ rateLines from_currency to_currency rate
      else caption
    | Except.error _ => caption
  match image_download with
  | none => Except.error "Failed to download image"
  | some image_data => Except.ok (image_data, caption)


/-! ## Character facts about the float-literal parser -/

lemma parseUnsigned_nil : parseUnsigned [] = none := rfl

lemma parseUnsigned_mem {cs : List Char} {v : ℚ}
    (h : parseUnsigned cs = some v) :
    ∀ c ∈ cs, isDigitChar c = true ∨ c = '.' := by
  intro c hc
  have hsplit := List.takeWhile_append_dropWhile (p := isDigitChar) (l := cs)
  rcases hrest : cs.dropWhile isDigitChar with _ | ⟨c', r2⟩
  · rw [hrest, List.append_nil] at hsplit
    rw [← hsplit] at hc
    exact Or.inl (List.mem_takeWhile_imp hc)
  · simp only [parseUnsigned, hrest] at h
    split_ifs at h with h1 h2 h3
    · -- the dot branch that returns a value
      have hr2 : r2.dropWhile isDigitChar = [] := by
        by_contra hne
        simp [List.isEmpty_iff, hne] at h2
      have hr2all : ∀ a ∈ r2, isDigitChar a = true := by
        intro a ha
        have hsp2 := List.takeWhile_append_dropWhile (p := isDigitChar) (l := r2)
        rw [hr2, List.append_nil] at hsp2
        rw [← hsp2] at ha
        exact List.mem_takeWhile_imp ha
      rw [hrest] at hsplit
      rw [← hsplit] at hc
      rcases List.mem_append.mp hc with hin | hin
      · exact Or.inl (List.mem_takeWhile_imp hin)
      · rcases List.mem_cons.mp hin with hceq | hin2
        · exact Or.inr (hceq.trans h1)
        · exact Or.inl (hr2all c hin2)

lemma pyFloatCore_mem {cs : List Char} {v : ℚ}
    (h : pyFloatCore cs = some v) :
    ∀ c ∈ cs, isDigitChar c = true ∨ c = '.' ∨ c = '+' ∨ c = '-' := by
  intro c hc
  rcases cs with _ | ⟨x, t⟩
  · cases hc
  · simp only [pyFloatCore] at h
    split_ifs at h with h1 h2
    · rcases List.mem_cons.mp hc with hceq | hin
      · exact Or.inr (Or.inr (Or.inl (hceq.trans h1)))
      · rcases parseUnsigned_mem h c hin with hd | hd
        · exact Or.inl hd
        · exact Or.inr (Or.inl hd)
    · rcases List.mem_cons.mp hc with hceq | hin
      · exact Or.inr (Or.inr (Or.inr (hceq.trans h2)))
      · rcases Option.map_eq_some'.mp h with ⟨a, ha, _⟩
        rcases parseUnsigned_mem ha c hin with hd | hd
        · exact Or.inl hd
        · exact Or.inr (Or.inl hd)
    · rcases parseUnsigned_mem h c hc with hd | hd
      · exact Or.inl hd
      · exact Or.inr (Or.inl hd)

lemma pyFloatCore_of_mem_bad {cs : List Char} {c : Char} (hc : c ∈ cs)
    (h1 : isDigitChar c = false) (h2 : c ≠ '.') (h3 : c ≠ '+')
    (h4 : c ≠ '-') : pyFloatCore cs = none := by
  rcases hv : pyFloatCore cs with _ | v
  · rfl
  · rcases pyFloatCore_mem hv c hc with hd | hd | hd | hd
    · rw [h1] at hd; cases hd
    · exact absurd hd h2
    · exact absurd hd h3
    · exact absurd hd h4

lemma pyFloatCore_badHead {x : Char} {t : List Char}
    (h1 : isDigitChar x = false) (h2 : x ≠ '.') (h3 : x ≠ '+')
    (h4 : x ≠ '-') : pyFloatCore (x :: t) = none :=
  pyFloatCore_of_mem_bad (List.mem_cons_self x t) h1 h2 h3 h4

lemma parseUnsigned_head {x : Char} {t : List Char} {v : ℚ}
    (h : parseUnsigned (x :: t) = some v) :
    isDigitChar x = true ∨ x = '.' :=
  parseUnsigned_mem h x (List.mem_cons_self x t)

/-! ## Stripping lemmas -/

lemma lstripAll_of_head_ne {c x : Char} {t : List Char} (h : x ≠ c) :
    lstripAll c (x :: t) = x :: t := by
  simp [lstripAll, h]

lemma lstripAll_of_not_mem {c : Char} {l : List Char} (h : c ∉ l) :
    lstripAll c l = l := by
  rcases l with _ | ⟨x, t⟩
  · rfl
  · have hx : x ≠ c := by
      intro he
      exact h (he ▸ List.mem_cons_self x t)
    exact lstripAll_of_head_ne hx

lemma dropTrailOne_cons {c x : Char} {t : List Char} (h : t ≠ []) :
    dropTrailOne c (x :: t) = x :: dropTrailOne c t := by
  obtain ⟨y, ys, hrev⟩ : ∃ y ys, t.reverse = y :: ys := by
    rcases hr : t.reverse with _ | ⟨y, ys⟩
    · exact absurd (by simpa using congrArg List.reverse hr) h
    · exact ⟨y, ys, rfl⟩
  unfold dropTrailOne
  rw [List.reverse_cons x t, hrev]
  show (dropLeadOne c (y :: (ys ++ [x]))).reverse = x :: (dropLeadOne c (y :: ys)).reverse
  simp only [dropLeadOne]
  split_ifs with hy
  · simp
  · simp

lemma dropTrailOne_single {c x : Char} :
    dropTrailOne c [x] = if x = c then [] else [x] := by
  simp only [dropTrailOne, List.reverse_cons, List.reverse_nil,
    List.nil_append, dropLeadOne]
  split_ifs with hx
  · rfl
  · rfl

lemma lstripAll_eq_dropLeadOne {c : Char} {l : List Char}
    (h : c ∉ dropLeadOne c l) : lstripAll c l = dropLeadOne c l := by
  rcases l with _ | ⟨x, t⟩
  · rfl
  · by_cases hx : x = c
    · subst hx
      have ht : dropLeadOne x (x :: t) = t := by simp [dropLeadOne]
      rw [ht] at h ⊢
      show lstripAll x (x :: t) = t
      have : lstripAll x (x :: t) = lstripAll x t := by simp [lstripAll]
      rw [this]
      exact lstripAll_of_not_mem h
    · have ht : dropLeadOne c (x :: t) = x :: t := by simp [dropLeadOne, hx]
      rw [ht]
      exact lstripAll_of_head_ne hx

lemma rstripAll_eq_dropTrailOne {c : Char} {l : List Char}
    (h : c ∉ dropTrailOne c l) : rstripAll c l = dropTrailOne c l := by
  unfold rstripAll dropTrailOne
  congr 1
  apply lstripAll_eq_dropLeadOne
  intro hc
  exact h (by
    unfold dropTrailOne
    exact List.mem_reverse.mpr hc)

lemma pyFloatCore_rstrip {w : List Char} {v : ℚ}
    (h : pyFloatCore (dropTrailOne '%' w) = some v) :
    pyFloatCore (rstripAll '%' w) = some v := by
  have hmem : '%' ∉ dropTrailOne '%' w := by
    intro hm
    rcases pyFloatCore_mem h '%' hm with hd | hd | hd | hd
    · exact absurd hd (by decide)
    · exact absurd hd (by decide)
    · exact absurd hd (by decide)
    · exact absurd hd (by decide)
  rw [rstripAll_eq_dropTrailOne hmem]
  exact h

lemma parseUnsigned_shape {cs : List Char} {v : ℚ}
    (h : parseUnsigned cs = some v) :
    ∃ z zt, cs = z :: zt ∧ (isDigitChar z = true ∨ z = '.') := by
  rcases cs with _ | ⟨z, zt⟩
  · rw [parseUnsigned_nil] at h; cases h
  · exact ⟨z, zt, rfl, parseUnsigned_head h⟩

lemma pyFloatCore_goodHead {z : Char} {zt : List Char}
    (hz : isDigitChar z = true ∨ z = '.') :
    pyFloatCore (z :: zt) = parseUnsigned (z :: zt) := by
  have h3 : z ≠ '+' := by
    rcases hz with hd | hd
    · intro he; rw [he] at hd; cases hd
    · rw [hd]; decide
  have h4 : z ≠ '-' := by
    rcases hz with hd | hd
    · intro he; rw [he] at hd; cases hd
    · rw [hd]; decide
  simp [pyFloatCore, h3, h4]


lemma dropTrailOne_head {c z zz : Char} {w2 zzt : List Char}
    (h : dropTrailOne c (z :: w2) = zz :: zzt) : zz = z := by
  rcases w2 with _ | ⟨a, b⟩
  · by_cases hz : z = c
    · rw [dropTrailOne_single, if_pos hz] at h
      cases h
    · rw [dropTrailOne_single, if_neg hz] at h
      injection h with h1 h2
      exact h1.symm
  · rw [dropTrailOne_cons (by simp)] at h
    injection h with h1 h2
    exact h1.symm

lemma stepPlus {u : List Char} {v : ℚ}
    (h : pyFloatCore (dropTrailOne '%' (dropLeadOne '+' u)) = some v) :
    pyFloatCore (rstripAll '%' (lstripAll '+' u)) = some v := by
  rcases u with _ | ⟨x, t⟩
  · exact h
  · by_cases hx : x = '+'
    · subst hx
      rcases t with _ | ⟨y, w⟩
      · -- the token is just "+"
        rw [show dropTrailOne '%' (dropLeadOne '+' ['+']) = [] from by decide,
          show pyFloatCore [] = none from rfl] at h
        cases h
      · by_cases hy : y = '+'
        · subst hy
          -- token "++…": the one-strip remainder keeps a "+", whose
          -- successful parse forces an unsigned literal after it
          have hd1 : dropLeadOne '+' ('+' :: '+' :: w) = '+' :: w := by
            simp [dropLeadOne]
          rw [hd1] at h
          rcases w with _ | ⟨z, w2⟩
          · rw [show dropTrailOne '%' ['+'] = ['+'] from by decide,
              show pyFloatCore ['+'] = none from by decide] at h
            cases h
          · have hd2 : dropTrailOne '%' ('+' :: z :: w2) =
                '+' :: dropTrailOne '%' (z :: w2) :=
              dropTrailOne_cons (by simp)
            rw [hd2] at h
            have hpu : parseUnsigned (dropTrailOne '%' (z :: w2)) = some v := by
              simpa [pyFloatCore] using h
            obtain ⟨zz, zzt, hdw, hzz⟩ := parseUnsigned_shape hpu
            have hzeq : zz = z := dropTrailOne_head hdw
            have hzz2 : isDigitChar z = true ∨ z = '.' := by
              rw [← hzeq]; exact hzz
            have hz_ne : z ≠ '+' := by
              rcases hzz2 with hd | hd
              · intro he; rw [he] at hd; cases hd
              · rw [hd]; decide
            have hls : lstripAll '+' ('+' :: '+' :: z :: w2) = z :: w2 := by
              rw [show lstripAll '+' ('+' :: ('+' :: z :: w2)) =
                  lstripAll '+' ('+' :: z :: w2) from by simp [lstripAll]]
              rw [show lstripAll '+' ('+' :: (z :: w2)) =
                  lstripAll '+' (z :: w2) from by simp [lstripAll]]
              exact lstripAll_of_head_ne hz_ne
            rw [hls]
            apply pyFloatCore_rstrip
            rw [hdw] at hpu ⊢
            exact (pyFloatCore_goodHead hzz).trans hpu
        · have hd1 : dropLeadOne '+' ('+' :: y :: w) = y :: w := by
            simp [dropLeadOne]
          rw [hd1] at h
          have hls : lstripAll '+' ('+' :: y :: w) = y :: w := by
            rw [show lstripAll '+' ('+' :: (y :: w)) =
                lstripAll '+' (y :: w) from by simp [lstripAll]]
            exact lstripAll_of_head_ne hy
          rw [hls]
          exact pyFloatCore_rstrip h
    · have hd1 : dropLeadOne '+' (x :: t) = x :: t := by
        simp [dropLeadOne, hx]
      rw [hd1] at h
      rw [lstripAll_of_head_ne hx]
      exact pyFloatCore_rstrip h

/-- If the spec's single-character stripping of a rate token parses as a
float, the code's run stripping parses to the same value. -/
lemma pyFloat_claimStrip_code {cs : List Char} {v : ℚ}
    (h : pyFloatCore (claimStrip cs) = some v) :
    pyFloatCore (codeStripRate cs) = some v := by
  unfold claimStrip at h
  unfold codeStripRate
  rcases cs with _ | ⟨x, t⟩
  · exact h
  · by_cases hx : x = 'R'
    · subst hx
      rcases t with _ | ⟨y, u⟩
      · -- the token is just "R"
        rw [show dropTrailOne '%' (dropLeadOne '+' (dropLeadOne 'R' ['R'])) = []
            from by decide, show pyFloatCore [] = none from rfl] at h
        cases h
      · by_cases hy : y = 'R'
        · subst hy
          -- token "RR…": the one-strip remainder starts with 'R' and can
          -- never parse as a float
          exfalso
          have hd1 : dropLeadOne 'R' ('R' :: 'R' :: u) = 'R' :: u := by
            simp [dropLeadOne]
          have hd2 : dropLeadOne '+' ('R' :: u) = 'R' :: u := by
            simp [dropLeadOne]
          rw [hd1, hd2] at h
          rcases u with _ | ⟨z, w⟩
          · rw [show dropTrailOne '%' ['R'] = ['R'] from by decide,
              show pyFloatCore ['R'] = none from by decide] at h
            cases h
          · rw [dropTrailOne_cons (by simp)] at h
            rw [pyFloatCore_badHead (by decide) (by decide) (by decide)
              (by decide)] at h
            cases h
        · have hd1 : dropLeadOne 'R' ('R' :: y :: u) = y :: u := by
            simp [dropLeadOne]
          rw [hd1] at h
          have hls : lstripAll 'R' ('R' :: y :: u) = y :: u := by
            rw [show lstripAll 'R' ('R' :: (y :: u)) =
                lstripAll 'R' (y :: u) from by simp [lstripAll]]
            exact lstripAll_of_head_ne hy
          rw [hls]
          exact stepPlus h
    · have hd1 : dropLeadOne 'R' (x :: t) = x :: t := by
        simp [dropLeadOne, hx]
      rw [hd1] at h
      rw [lstripAll_of_head_ne hx]
      exact stepPlus h

lemma mem_of_mem_lstripAll {c x : Char} {l : List Char}
    (h : x ∈ lstripAll c l) : x ∈ l := by
  induction l with
  | nil => cases h
  | cons y t ih =>
    simp only [lstripAll] at h
    split_ifs at h with hy
    · exact List.mem_cons_of_mem y (ih h)
    · exact h

lemma mem_of_mem_rstripAll {c x : Char} {l : List Char}
    (h : x ∈ rstripAll c l) : x ∈ l := by
  unfold rstripAll at h
  rw [List.mem_reverse] at h
  exact List.mem_reverse.mp (mem_of_mem_lstripAll h)

lemma alpha_not_float_char {ch : Char} (h : isAlphaChar ch = true) :
    isDigitChar ch = false ∧ ch ≠ '.' ∧ ch ≠ '+' ∧ ch ≠ '-' := by
  refine ⟨?_, ?_, ?_, ?_⟩
  · cases hb : isDigitChar ch with
    | false => rfl
    | true =>
      exfalso
      simp only [isDigitChar, Bool.and_eq_true, decide_eq_true_eq] at hb
      simp only [isAlphaChar, Bool.or_eq_true, Bool.and_eq_true,
        decide_eq_true_eq] at h
      rcases h with h | h
      · omega
      · omega
  · intro he; rw [he] at h; exact absurd h (by decide)
  · intro he; rw [he] at h; exact absurd h (by decide)
  · intro he; rw [he] at h; exact absurd h (by decide)

lemma alpha_pyFloat_none {l : List Char}
    (h : ∀ ch ∈ l, isAlphaChar ch = true) : pyFloatCore l = none := by
  rcases l with _ | ⟨ch, t⟩
  · rfl
  · obtain ⟨h1, h2, h3, h4⟩ := alpha_not_float_char (h ch (List.mem_cons_self ch t))
    exact pyFloatCore_badHead h1 h2 h3 h4

/-! ## Claims about the input parser -/

/-- C2: an extra token of rate-adjustment shape whose remainder — after
stripping a leading `R`, then a leading `+`, then a trailing `%` — parses
as a signed float `v` sets the rate multiplier to `1 + v/100` when
`v ≥ 0` and to `1 / (1 + |v|/100)` when `v < 0`. -/
theorem claim2_rate_adjustment_formula (st : CurrencyParse) (t : String) (v : ℚ)
    (hq : qualifiesRate (upperStr t) = true)
    (hv : pyFloatCore (claimStrip (upperStr t).data) = some v) :
    processExtraToken st t =
      { st with rate_adjustment :=
          if 0 ≤ v then 1 + v / 100 else 1 / (1 + |v| / 100) } := by
  have hcode := pyFloat_claimStrip_code hv
  simp only [processExtraToken, hq, if_true, hcode]

/-- Witness for C2 at the spec's examples: `R-2` multiplies by `1/1.02`
and `R+5` multiplies by `1.05`; the full parse of `["100", "R-2"]` ends
at multiplier `50/51`. -/
theorem claim2_rate_adjustment_formula_witness :
    processExtraToken ⟨100, "EUR", "USD", 1⟩ "R-2" =
      ⟨100, "EUR", "USD", 1 / (1 + 2 / 100)⟩
    ∧ processExtraToken ⟨100, "EUR", "USD", 1⟩ "R+5" =
      ⟨100, "EUR", "USD", 1 + 5 / 100⟩
    ∧ parse_currency_input 7 ["100", "R-2"] "EUR" = ⟨100, "EUR", "USD", 50 / 51⟩ := by
  refine ⟨?_, ?_, by decide⟩
  · exact (claim2_rate_adjustment_formula ⟨100, "EUR", "USD", 1⟩ "R-2" (-2)
      (by decide) (by decide)).trans (by decide)
  · exact (claim2_rate_adjustment_formula ⟨100, "EUR", "USD", 1⟩ "R+5" 5
      (by decide) (by decide)).trans (by decide)

/-- C8 (amended): an extra token of rate-adjustment shape whose remainder
under the code's stripping (all leading `R`s, then all leading `+`s, then
all trailing `%`s) fails numeric parsing is ignored: the state is
unchanged and folding continues with the remaining tokens. -/
theorem claim8_malformed_token_ignored (st : CurrencyParse) (t : String)
    (rest : List String)
    (hq : qualifiesRate (upperStr t) = true)
    (hfail : pyFloatCore (codeStripRate (upperStr t).data) = none) :
    List.foldl processExtraToken st (t :: rest) =
      List.foldl processExtraToken st rest := by
  rw [List.foldl_cons]
  have hst : processExtraToken st t = st := by
    simp only [processExtraToken, hq, if_true, hfail]
  rw [hst]

/-- Witness for C8 at the spec's example: a lone `"R"` between other
tokens is skipped without disturbing the fold. -/
theorem claim8_malformed_token_ignored_witness :
    List.foldl processExtraToken ⟨100, "EUR", "USD", 1⟩ ["R", "GBP"] =
      List.foldl processExtraToken ⟨100, "EUR", "USD", 1⟩ ["GBP"] :=
  claim8_malformed_token_ignored ⟨100, "EUR", "USD", 1⟩ "R" ["GBP"]
    (by decide) (by decide)

/-- C8 counterexample: the token `"RR5"` matches the rate-adjustment
shape and its remainder under the spec's stripping (one leading `R`) is
`"R5"`, which fails numeric parsing — yet the code does not leave the
multiplier unchanged: `lstrip('R')` removes both `R`s and the multiplier
becomes `1.05`. -/
theorem claim8_counterexample :
    qualifiesRate (upperStr "RR5") = true
    ∧ pyFloatCore (claimStrip (upperStr "RR5").data) = none
    ∧ processExtraToken ⟨100, "EUR", "USD", 1⟩ "RR5" ≠ ⟨100, "EUR", "USD", 1⟩
    ∧ processExtraToken ⟨100, "EUR", "USD", 1⟩ "RR5" =
      ⟨100, "EUR", "USD", 1 + 5 / 100⟩ := by
  refine ⟨by decide, by decide, by decide, by decide⟩

/-- C10: an extra token of exactly three alphabetic characters starting
with `R` (such as `"RUB"` or `"RON"`) is captured by the rate-adjustment
branch, fails the float parse, and is discarded — it never reaches the
currency-code branch, so the whole state (in particular `to_currency`)
is unchanged. -/
theorem claim10_r_currency_unreachable (st : CurrencyParse) (t : String)
    (hlen : (upperStr t).data.length = 3)
    (halpha : pyIsAlpha (upperStr t) = true)
    (hhead : (upperStr t).data.head? = some 'R') :
    processExtraToken st t = st := by
  have hall : ∀ ch ∈ (upperStr t).data, isAlphaChar ch = true := by
    simp only [pyIsAlpha, Bool.and_eq_true, List.all_eq_true] at halpha
    exact halpha.2
  have hq : qualifiesRate (upperStr t) = true := by
    rcases hT : (upperStr t).data with _ | ⟨a, t1⟩
    · rw [hT] at hhead; cases hhead
    · rw [hT] at hhead
      have ha : a = 'R' := by
        injection hhead
      simp [qualifiesRate, hT, headIs, ha]
  have hfail : pyFloatCore (codeStripRate (upperStr t).data) = none := by
    apply alpha_pyFloat_none
    intro ch hch
    exact hall ch
      (mem_of_mem_lstripAll (mem_of_mem_lstripAll (mem_of_mem_rstripAll hch)))
  simp only [processExtraToken, hq, if_true, hfail]

/-- Witness for C10 at the spec's example token `"RUB"`. -/
theorem claim10_r_currency_unreachable_witness :
    processExtraToken ⟨100, "EUR", "USD", 1⟩ "RUB" = ⟨100, "EUR", "USD", 1⟩ :=
  claim10_r_currency_unreachable ⟨100, "EUR", "USD", 1⟩ "RUB"
    (by decide) (by decide) (by decide)

lemma processFirstTokenX_rate (base : String) (st : CurrencyParseX)
    (t : String) :
    (processFirstTokenX base st t).rate_adjustment = st.rate_adjustment := by
  simp only [processFirstTokenX]
  split_ifs <;> rfl

lemma processExtraTokenX_rate_pos (st : CurrencyParseX) (t : String)
    (hfin : qualifiesRate (upperStr t) = true →
      finiteOrFails (pyFloatFull (codeStripRate (upperStr t).data)) = true)
    (h : ∃ q : ℚ, st.rate_adjustment = PyFloat.finite q ∧ 0 < q) :
    ∃ q : ℚ, (processExtraTokenX st t).rate_adjustment = PyFloat.finite q ∧
      0 < q := by
  simp only [processExtraTokenX]
  split_ifs with hq hc
  · rcases hfc : pyFloatFull (codeStripRate (upperStr t).data) with _ | v
    · exact h
    · have hf := hfin hq
      rw [hfc] at hf
      cases v with
      | finite rv =>
        refine ⟨if 0 ≤ rv then 1 + rv / 100 else 1 / (1 + |rv| / 100), rfl, ?_⟩
        split_ifs with hv
        · have : (0 : ℚ) ≤ rv / 100 := by positivity
          linarith
        · have habs : (0 : ℚ) < 1 + |rv| / 100 := by positivity
          positivity
      | inf => exact absurd hf (by decide)
      | neginf => exact absurd hf (by decide)
      | nan => exact absurd hf (by decide)
  · exact h
  · exact h

lemma foldl_rate_posX :
    ∀ (l : List String) (st : CurrencyParseX),
      (∀ t ∈ l, qualifiesRate (upperStr t) = true →
        finiteOrFails (pyFloatFull (codeStripRate (upperStr t).data)) = true) →
      (∃ q : ℚ, st.rate_adjustment = PyFloat.finite q ∧ 0 < q) →
      ∃ q : ℚ, (List.foldl processExtraTokenX st l).rate_adjustment =
        PyFloat.finite q ∧ 0 < q
  | [], _, _, h => h
  | t :: l, st, hfin, h => by
    rw [List.foldl_cons]
    exact foldl_rate_posX l _
      (fun t' ht' => hfin t' (List.mem_cons_of_mem t ht'))
      (processExtraTokenX_rate_pos st t (hfin t (List.mem_cons_self t l)) h)

/-- C7 (amended): the rate multiplier returned by `parse_currency_input`
is strictly positive provided every extra token that takes the
rate-adjustment branch parses to a finite float: the default is `1`, a
parsed finite `v ≥ 0` gives `1 + v/100 ≥ 1`, and a parsed finite `v < 0`
gives `1/(1 + |v|/100)` strictly between 0 and 1.  The proviso is
needed: `float()` also accepts the `inf`/`nan` literal forms, under
which the multiplier reaches exactly `0.0` or `nan`. -/
theorem claim7_rate_multiplier_positive (randAmount : ℕ) (args : List String)
    (base_currency : String)
    (hfin : ∀ t ∈ args.tail, qualifiesRate (upperStr t) = true →
      finiteOrFails (pyFloatFull (codeStripRate (upperStr t).data)) = true) :
    ∃ q : ℚ,
      (parse_currency_inputX randAmount args base_currency).rate_adjustment =
        PyFloat.finite q ∧ 0 < q := by
  rcases args with _ | ⟨a0, rest⟩
  · exact ⟨1, rfl, by norm_num⟩
  · show ∃ q : ℚ, (List.foldl processExtraTokenX
      (processFirstTokenX base_currency (initStateX randAmount base_currency) a0)
      rest).rate_adjustment = PyFloat.finite q ∧ 0 < q
    refine foldl_rate_posX rest _ (fun t ht => hfin t ht) ⟨1, ?_, by norm_num⟩
    rw [processFirstTokenX_rate]
    rfl

/-- C7 counterexample: the extra token `"-INF"` qualifies as a rate
adjustment and `float("-INF")` is `-inf`, so the code computes
`1/(1 + |-inf|/100) = 1/inf`, which is exactly `0.0` — the multiplier is
driven to zero, refuting strict positivity; `"RNAN"` likewise drives it
to `nan`. -/
theorem claim7_counterexample :
    (parse_currency_inputX 100 ["100", "-INF"] "EUR").rate_adjustment =
      PyFloat.finite 0
    ∧ (parse_currency_inputX 100 ["100", "RNAN"] "EUR").rate_adjustment =
      PyFloat.nan := by
  exact ⟨by decide, by decide⟩

/-- Witness for C7 at `["100", "R-2"]`: the token parses to the finite
value `-2` and the multiplier is the positive `50/51`. -/
theorem claim7_rate_multiplier_positive_witness :
    ∃ q : ℚ,
      (parse_currency_inputX 7 ["100", "R-2"] "EUR").rate_adjustment =
        PyFloat.finite q ∧ 0 < q :=
  claim7_rate_multiplier_positive 7 ["100", "R-2"] "EUR" (by decide)

/-- C9: `adjust_amount` returns `round(amount * multiplier, 2)` for
positive amounts and the amount itself, unrounded, otherwise. -/
theorem claim9_adjust_amount (amount multiplier : ℚ) :
    (0 < amount → adjust_amount amount multiplier = pyRound (amount * multiplier) 2)
    ∧ (amount ≤ 0 → adjust_amount amount multiplier = amount) := by
  constructor
  · intro h
    simp only [adjust_amount, if_pos h]
  · intro h
    simp only [adjust_amount, if_neg (not_lt.mpr h)]

/-- Witness for C9 at the spec's examples: `adjust(100, 1.05) = 105`,
`adjust(0, 1.05) = 0`, `adjust(-5, 2) = -5`. -/
theorem claim9_adjust_amount_witness :
    adjust_amount 100 (21 / 20) = 105
    ∧ adjust_amount 0 (21 / 20) = 0
    ∧ adjust_amount (-5) 2 = -5 := by
  refine ⟨?_, ?_, ?_⟩
  · exact ((claim9_adjust_amount 100 (21 / 20)).1 (by norm_num)).trans (by decide)
  · exact (claim9_adjust_amount 0 (21 / 20)).2 (by norm_num)
  · exact (claim9_adjust_amount (-5) 2).2 (by norm_num)

/-- C6: with an empty argument list every field keeps its default:
the amount is the supplied random integer (drawn uniformly from
`[1, 10000]`) cast to `ℚ`, `from = base`, `to = "USD"` unless the base is
`"USD"` (then `"EUR"`), and the multiplier is `1`. -/
theorem claim6_empty_args_defaults (base_currency : String) (randAmount : ℕ)
    (h1 : 1 ≤ randAmount) (h2 : randAmount ≤ 10000) :
    parse_currency_input randAmount [] base_currency =
      { amount := (randAmount : ℚ)
        from_currency := base_currency
        to_currency := if base_currency = "USD" then "EUR" else "USD"
        rate_adjustment := 1 }
    ∧ 1 ≤ (parse_currency_input randAmount [] base_currency).amount
    ∧ (parse_currency_input randAmount [] base_currency).amount ≤ 10000 := by
  refine ⟨?_, ?_, ?_⟩
  · show initState randAmount base_currency = _
    unfold initState
    by_cases hb : base_currency = "USD"
    · simp [hb]
    · simp [hb]
  · show 1 ≤ (initState randAmount base_currency).amount
    show (1 : ℚ) ≤ (randAmount : ℚ)
    exact_mod_cast h1
  · show (initState randAmount base_currency).amount ≤ 10000
    show (randAmount : ℚ) ≤ (10000 : ℚ)
    exact_mod_cast h2

/-- Witness for C6 at the spec's example `parse([], "EUR")` with the
random draw 7. -/
theorem claim6_empty_args_defaults_witness :
    parse_currency_input 7 [] "EUR" = ⟨7, "EUR", "USD", 1⟩ :=
  ((claim6_empty_args_defaults "EUR" 7 (by norm_num) (by norm_num)).1).trans
    (by decide)

/-- C5: the upper-cased first token is classified in priority order:
exactly three alphabetic characters set only `to_currency`; length ≥ 3
with alphabetic last three and an all-digit prefix sets the amount,
`from_currency` and `to_currency = base`; an all-digit token sets only
the amount; any other first token (including an alphabetic-suffix token
with a non-digit prefix) is silently ignored.  The first conjunct ties
the classification into `parse_currency_input`. -/
theorem claim5_first_token_classification (randAmount : ℕ)
    (base_currency a0 : String) (rest : List String) (st : CurrencyParse) :
    parse_currency_input randAmount (a0 :: rest) base_currency =
      List.foldl processExtraToken
        (processFirstToken base_currency (initState randAmount base_currency) a0)
        rest
    ∧ ((upperStr a0).data.length = 3 ∧ pyIsAlpha (upperStr a0) = true →
        processFirstToken base_currency st a0 = { st with to_currency := upperStr a0 })
    ∧ (¬((upperStr a0).data.length = 3 ∧ pyIsAlpha (upperStr a0) = true) →
        3 ≤ (upperStr a0).data.length →
        pyIsAlpha ⟨lastThreeL (upperStr a0).data⟩ = true →
        pyIsDigit ⟨dropLastThreeL (upperStr a0).data⟩ = true →
        processFirstToken base_currency st a0 =
          { amount := (digitsToNat (dropLastThreeL (upperStr a0).data) : ℚ)
            from_currency := ⟨lastThreeL (upperStr a0).data⟩
            to_currency := base_currency
            rate_adjustment := st.rate_adjustment })
    ∧ (¬((upperStr a0).data.length = 3 ∧ pyIsAlpha (upperStr a0) = true) →
        3 ≤ (upperStr a0).data.length →
        pyIsAlpha ⟨lastThreeL (upperStr a0).data⟩ = true →
        ¬ pyIsDigit ⟨dropLastThreeL (upperStr a0).data⟩ = true →
        processFirstToken base_currency st a0 = st)
    ∧ (¬((upperStr a0).data.length = 3 ∧ pyIsAlpha (upperStr a0) = true) →
        ¬(3 ≤ (upperStr a0).data.length ∧
          pyIsAlpha ⟨lastThreeL (upperStr a0).data⟩ = true) →
        pyIsDigit (upperStr a0) = true →
        processFirstToken base_currency st a0 =
          { st with amount := (digitsToNat (upperStr a0).data : ℚ) })
    ∧ (¬((upperStr a0).data.length = 3 ∧ pyIsAlpha (upperStr a0) = true) →
        ¬(3 ≤ (upperStr a0).data.length ∧
          pyIsAlpha ⟨lastThreeL (upperStr a0).data⟩ = true) →
        ¬ pyIsDigit (upperStr a0) = true →
        processFirstToken base_currency st a0 = st) := by
  refine ⟨rfl, ?_, ?_, ?_, ?_, ?_⟩
  · intro h
    simp only [processFirstToken]
    split_ifs <;> first | rfl | tauto
  · intro h1 h2 h3 h4
    simp only [processFirstToken]
    split_ifs <;> first | rfl | tauto
  · intro h1 h2 h3 h4
    simp only [processFirstToken]
    split_ifs <;> first | rfl | tauto
  · intro h1 h2 h3
    simp only [processFirstToken]
    split_ifs <;> first | rfl | tauto
  · intro h1 h2 h3
    simp only [processFirstToken]
    split_ifs <;> first | rfl | tauto

/-- Witness for C5 at the spec's example: `parse(["100USD"], "EUR")`
yields amount 100, source USD, target EUR. -/
theorem claim5_first_token_classification_witness :
    parse_currency_input 7 ["100USD"] "EUR" = ⟨100, "USD", "EUR", 1⟩ := by
  have h := claim5_first_token_classification 7 "EUR" "100USD" [] (initState 7 "EUR")
  have h2 := h.2.2.1 (by decide) (by decide) (by decide) (by decide)
  rw [h.1, h2]
  decide

/-! ## Structure of the XE pattern match -/

lemma takeWhile_all {p : Char → Bool} {l : List Char}
    (h : ∀ x ∈ l, p x = true) : l.takeWhile p = l ∧ l.dropWhile p = [] := by
  induction l with
  | nil => exact ⟨rfl, rfl⟩
  | cons a t ih =>
    have ha := h a (List.mem_cons_self a t)
    have iht := ih (fun x hx => h x (List.mem_cons_of_mem a hx))
    rw [List.takeWhile_cons_of_pos ha, List.dropWhile_cons_of_pos ha]
    exact ⟨by rw [iht.1], iht.2⟩

lemma takeWhile_append_stop {p : Char → Bool} {a b : List Char} {c : Char}
    (ha : ∀ x ∈ a, p x = true) (hc : p c = false) :
    (a ++ c :: b).takeWhile p = a ∧ (a ++ c :: b).dropWhile p = c :: b := by
  induction a with
  | nil =>
    have hcn : ¬ p c = true := by rw [hc]; exact Bool.false_ne_true
    exact ⟨List.takeWhile_cons_of_neg hcn, List.dropWhile_cons_of_neg hcn⟩
  | cons x t ih =>
    have hx := ha x (List.mem_cons_self x t)
    have iht := ih (fun y hy => ha y (List.mem_cons_of_mem x hy))
    constructor
    · rw [List.cons_append, List.takeWhile_cons_of_pos hx, iht.1]
    · rw [List.cons_append, List.dropWhile_cons_of_pos hx, iht.2]

theorem chainGroups_append : ∀ l : List Char,
    (chainGroups l).1 ++ (chainGroups l).2 = l
  | [] => by simp [chainGroups]
  | [x] => by simp [chainGroups]
  | [x, a] => by simp [chainGroups]
  | [x, a, b] => by simp [chainGroups]
  | x :: a :: b :: c :: rest => by
    have ih := chainGroups_append rest
    simp only [chainGroups]
    split_ifs
    · simpa using ih
    · simp

theorem chainGroups_chars : ∀ l : List Char,
    ∀ ch ∈ (chainGroups l).1, isDigitChar ch = true ∨ ch = ','
  | [] => by simp [chainGroups]
  | [x] => by simp [chainGroups]
  | [x, a] => by simp [chainGroups]
  | [x, a, b] => by simp [chainGroups]
  | x :: a :: b :: c :: rest => by
    intro ch hch
    have ih := chainGroups_chars rest
    simp only [chainGroups] at hch
    split_ifs at hch with hcond
    · obtain ⟨hx, hda, hdb, hdc⟩ := hcond
      rcases List.mem_cons.mp hch with he | hch
      · exact Or.inr (he.trans hx)
      · rcases List.mem_cons.mp hch with he | hch
        · exact Or.inl (he ▸ hda)
        · rcases List.mem_cons.mp hch with he | hch
          · exact Or.inl (he ▸ hdb)
          · rcases List.mem_cons.mp hch with he | hch
            · exact Or.inl (he ▸ hdc)
            · exact ih ch hch
    · cases hch

lemma parseNumToken_inv {cs n r : List Char}
    (h : parseNumToken cs = some (n, r)) :
    ∃ ds g fs, n = ds ++ g ++ '.' :: fs ∧ ds ≠ [] ∧ fs ≠ [] ∧
      (∀ c ∈ ds, isDigitChar c = true) ∧
      (∀ c ∈ g, isDigitChar c = true ∨ c = ',') ∧
      (∀ c ∈ fs, isDigitChar c = true) := by
  have hds : ∀ c ∈ cs.takeWhile isDigitChar, isDigitChar c = true :=
    fun c hc => List.mem_takeWhile_imp hc
  simp only [parseNumToken] at h
  split_ifs at h with hde hlen
  · -- digit run of length ≤ 3: grouped branch tried first
    split at h
    · -- outer match took the `some` arm
      rename_i x heq
      injection h with hx
      subst hx
      split at heq
      · rename_i c' r2 hgp
        split_ifs at heq with hdot hfse
        injection heq with h1
        injection h1 with hn hr
        refine ⟨cs.takeWhile isDigitChar,
          (chainGroups (cs.dropWhile isDigitChar)).1,
          r2.takeWhile isDigitChar, hn.symm, ?_, ?_, hds, ?_, ?_⟩
        · intro hnil
          rw [← List.isEmpty_iff] at hnil
          exact hde hnil
        · intro hnil
          rw [← List.isEmpty_iff] at hnil
          exact hfse hnil
        · exact chainGroups_chars (cs.dropWhile isDigitChar)
        · exact fun c hc => List.mem_takeWhile_imp hc
      · simp at heq
    · -- outer match took the `none` arm: the plain branch matched
      rename_i heq
      split at h
      · rename_i c' r2 had
        split_ifs at h with hdot hfse
        injection h with h1
        injection h1 with hn hr
        refine ⟨cs.takeWhile isDigitChar, [], r2.takeWhile isDigitChar,
          ?_, ?_, ?_, hds, by simp, ?_⟩
        · rw [← hn]; simp
        · intro hnil
          rw [← List.isEmpty_iff] at hnil
          exact hde hnil
        · intro hnil
          rw [← List.isEmpty_iff] at hnil
          exact hfse hnil
        · exact fun c hc => List.mem_takeWhile_imp hc
      · exact Option.noConfusion h
  · -- digit run longer than 3: only the plain branch is live
    split at h
    · rename_i x heq
      exact Option.noConfusion heq
    · split at h
      · rename_i c' r2 had
        split_ifs at h with hdot hfse
        injection h with h1
        injection h1 with hn hr
        refine ⟨cs.takeWhile isDigitChar, [], r2.takeWhile isDigitChar,
          ?_, ?_, ?_, hds, by simp, ?_⟩
        · rw [← hn]; simp
        · intro hnil
          rw [← List.isEmpty_iff] at hnil
          exact hde hnil
        · intro hnil
          rw [← List.isEmpty_iff] at hnil
          exact hfse hnil
        · exact fun c hc => List.mem_takeWhile_imp hc
      · exact Option.noConfusion h

lemma matchWordEq_inv {cs w r : List Char}
    (h : matchWordEq cs = some (w, r)) :
    ∃ run, w = run ++ ['='] ∧ ∀ c ∈ run, isClassChar c = true := by
  simp only [matchWordEq] at h
  split at h
  · rename_i x r' hdr
    split_ifs at h with hcond
    injection h with h1
    injection h1 with hw hr
    refine ⟨cs.takeWhile isClassChar, ?_, fun c hc => List.mem_takeWhile_imp hc⟩
    rw [← hw, hcond.1]
  · exact Option.noConfusion h

lemma matchTrailingWords_inv {cs w r : List Char}
    (h : matchTrailingWords cs = some (w, r)) :
    ∀ c ∈ w, isClassChar c = true := by
  simp only [matchTrailingWords] at h
  split_ifs at h with hcond
  injection h with h1
  injection h1 with hw hr
  rw [← hw]
  exact fun c hc => List.mem_takeWhile_imp hc

lemma matchAt_inv {cs m : List Char} (h : matchAt cs = some m) :
    ∃ n1 w1 sp n2 w2 r1 r2 n2r w2r : List Char,
      m = n1 ++ w1 ++ sp ++ n2 ++ w2 ∧
      parseNumToken cs = some (n1, r1) ∧
      matchWordEq r1 = some (w1, r2) ∧
      sp = r2.takeWhile isWsChar ∧
      parseNumToken (r2.dropWhile isWsChar) = some (n2, n2r) ∧
      matchTrailingWords n2r = some (w2, w2r) := by
  simp only [matchAt] at h
  rcases hnum1 : parseNumToken cs with _ | ⟨n1, r1⟩
  · simp only [hnum1] at h
    exact Option.noConfusion h
  · simp only [hnum1] at h
    rcases hword : matchWordEq r1 with _ | ⟨w1, r2⟩
    · simp only [hword] at h
      exact Option.noConfusion h
    · simp only [hword] at h
      rcases hnum2 : parseNumToken (r2.dropWhile isWsChar) with _ | ⟨n2, r4⟩
      · simp only [hnum2] at h
        exact Option.noConfusion h
      · simp only [hnum2] at h
        rcases htrail : matchTrailingWords r4 with _ | ⟨w2, r5⟩
        · simp only [htrail] at h
          exact Option.noConfusion h
        · simp only [htrail, Option.some.injEq] at h
          refine ⟨n1, w1, r2.takeWhile isWsChar, n2, w2, r1, r2, r4, r5,
            h.symm, ?_, ?_, rfl, ?_, ?_⟩ <;>
            first
              | rfl
              | exact hnum1
              | exact hword
              | exact hnum2
              | exact htrail

lemma class_not_keep {c : Char} (h : isClassChar c = true) :
    keepChar c = false := by
  cases hb : keepChar c with
  | false => rfl
  | true =>
    exfalso
    have hclass : (65 ≤ c.toNat ∧ c.toNat ≤ 90) ∨ (97 ≤ c.toNat ∧ c.toNat ≤ 122)
        ∨ c.toNat = 32 ∨ c.toNat = 9 ∨ c.toNat = 10 ∨ c.toNat = 11 ∨
          c.toNat = 12 ∨ c.toNat = 13 := by
      simp only [isClassChar, isAlphaChar, isWsChar, Bool.or_eq_true,
        Bool.and_eq_true, decide_eq_true_eq] at h
      tauto
    have hkeep : (48 ≤ c.toNat ∧ c.toNat ≤ 57) ∨ c = '.' ∨ c = '=' := by
      simp only [keepChar, isDigitChar, Bool.or_eq_true, Bool.and_eq_true,
        decide_eq_true_eq, beq_iff_eq] at hb
      tauto
    rcases hkeep with ⟨hk1, hk2⟩ | hk | hk
    · rcases hclass with ⟨h1, h2⟩ | ⟨h1, h2⟩ | h1 | h1 | h1 | h1 | h1 | h1 <;>
        omega
    · subst hk
      exact absurd hclass (by decide)
    · subst hk
      exact absurd hclass (by decide)

lemma ws_not_keep {c : Char} (h : isWsChar c = true) : keepChar c = false :=
  class_not_keep (by simp [isClassChar, h])

lemma digit_keep {c : Char} (h : isDigitChar c = true) : keepChar c = true := by
  simp [keepChar, h]

lemma stripKeep_all_drop {l : List Char} (h : ∀ c ∈ l, keepChar c = false) :
    stripKeep l = [] := by
  unfold stripKeep
  induction l with
  | nil => rfl
  | cons a t ih =>
    rw [List.filter_cons_of_neg]
    · exact ih (fun c hc => h c (List.mem_cons_of_mem a hc))
    · rw [h a (List.mem_cons_self a t)]
      exact Bool.false_ne_true

lemma stripKeep_all_keep {l : List Char} (h : ∀ c ∈ l, keepChar c = true) :
    stripKeep l = l :=
  List.filter_eq_self.mpr h

lemma splitEqL_no_eq {b : List Char} (h : ∀ c ∈ b, c ≠ '=') :
    splitEqL b = [b] := by
  induction b with
  | nil => rfl
  | cons c t ih =>
    have hc := h c (List.mem_cons_self c t)
    have iht := ih (fun x hx => h x (List.mem_cons_of_mem c hx))
    simp only [splitEqL, if_neg hc, iht]

lemma splitEqL_append {a b : List Char} (ha : ∀ c ∈ a, c ≠ '=') :
    splitEqL (a ++ '=' :: b) = a :: splitEqL b := by
  induction a with
  | nil =>
    show splitEqL ('=' :: b) = [] :: splitEqL b
    simp [splitEqL]
  | cons x a' ih =>
    have hx := ha x (List.mem_cons_self x a')
    have iha := ih (fun c hc => ha c (List.mem_cons_of_mem x hc))
    simp only [List.cons_append, splitEqL, if_neg hx]
    rw [show List.append a' ('=' :: b) = a' ++ '=' :: b from rfl, iha]

lemma pyFloatCore_digit_dot {xs ys : List Char} (hxs : xs ≠ []) (hys : ys ≠ [])
    (hdx : ∀ c ∈ xs, isDigitChar c = true)
    (hdy : ∀ c ∈ ys, isDigitChar c = true) :
    pyFloatCore (xs ++ '.' :: ys) =
      some ((digitsToNat xs : ℚ) + (digitsToNat ys : ℚ) / 10 ^ ys.length) := by
  rcases xs with _ | ⟨x, xt⟩
  · exact absurd rfl hxs
  · have hx := hdx x (List.mem_cons_self x xt)
    have hsplit := takeWhile_append_stop (b := ys) (c := '.') hdx (by decide)
    rw [List.cons_append]
    rw [pyFloatCore_goodHead (Or.inl hx)]
    rw [← List.cons_append]
    simp only [parseUnsigned, hsplit.1, hsplit.2, if_pos rfl]
    have hys2 := takeWhile_all hdy
    rw [hys2.1, hys2.2]
    simp

lemma stripKeep_append (a b : List Char) :
    stripKeep (a ++ b) = stripKeep a ++ stripKeep b :=
  List.filter_append a b

lemma digit_ne_eq_sign {c : Char} (h : isDigitChar c = true) : c ≠ '=' := by
  intro he
  rw [he] at h
  exact absurd h (by decide)

lemma stripKeep_num {ds g fs : List Char}
    (hds : ∀ c ∈ ds, isDigitChar c = true)
    (hg : ∀ c ∈ g, isDigitChar c = true ∨ c = ',')
    (hfs : ∀ c ∈ fs, isDigitChar c = true) :
    stripKeep (ds ++ g ++ '.' :: fs) =
      (ds ++ g.filter keepChar) ++ '.' :: fs
    ∧ (∀ c ∈ ds ++ g.filter keepChar, isDigitChar c = true) := by
  constructor
  · rw [stripKeep_append, stripKeep_append]
    rw [stripKeep_all_keep (fun c hc => digit_keep (hds c hc))]
    have hdot : stripKeep ('.' :: fs) = '.' :: fs :=
      stripKeep_all_keep (fun c hc => by
        rcases List.mem_cons.mp hc with he | hc2
        · rw [he]; decide
        · exact digit_keep (hfs c hc2))
    rw [hdot]
    simp [stripKeep, List.append_assoc]
  · intro c hc
    rcases List.mem_append.mp hc with hc | hc
    · exact hds c hc
    · have hmem := List.mem_filter.mp hc
      rcases hg c hmem.1 with hd | hcomma
      · exact hd
      · rw [hcomma] at hmem
        exact absurd hmem.2 (by decide)

lemma matchAt_parts {cs m : List Char} (h : matchAt cs = some m) :
    ∃ a1 a2 : List Char, ∃ v1 v2 : ℚ,
      splitEqL (stripKeep m) = [a1, a2] ∧
      pyFloatCore a1 = some v1 ∧ pyFloatCore a2 = some v2 := by
  obtain ⟨n1, w1, sp, n2, w2, r1, r2, n2r, w2r, hm, hnum1, hword, hsp,
    hnum2, htrail⟩ := matchAt_inv h
  obtain ⟨ds1, g1, fs1, hn1, hds1ne, hfs1ne, hds1, hg1, hfs1⟩ :=
    parseNumToken_inv hnum1
  obtain ⟨ds2, g2, fs2, hn2, hds2ne, hfs2ne, hds2, hg2, hfs2⟩ :=
    parseNumToken_inv hnum2
  obtain ⟨run1, hw1, hrun1⟩ := matchWordEq_inv hword
  have hw2 := matchTrailingWords_inv htrail
  have hstrip1 := stripKeep_num hds1 hg1 hfs1
  have hstrip2 := stripKeep_num hds2 hg2 hfs2
  have hskw1 : stripKeep w1 = ['='] := by
    rw [hw1, stripKeep_append]
    rw [stripKeep_all_drop (fun c hc => class_not_keep (hrun1 c hc))]
    decide
  have hsksp : stripKeep sp = [] := by
    apply stripKeep_all_drop
    intro c hc
    rw [hsp] at hc
    exact ws_not_keep (List.mem_takeWhile_imp hc)
  have hskw2 : stripKeep w2 = [] :=
    stripKeep_all_drop (fun c hc => class_not_keep (hw2 c hc))
  have hskm : stripKeep m =
      ((ds1 ++ g1.filter keepChar) ++ '.' :: fs1) ++
        '=' :: ((ds2 ++ g2.filter keepChar) ++ '.' :: fs2) := by
    rw [hm, hn1, hn2, stripKeep_append, stripKeep_append, stripKeep_append,
      stripKeep_append, hstrip1.1, hskw1, hsksp, hstrip2.1, hskw2]
    simp [List.append_assoc]
  have hA1ne : ∀ c ∈ (ds1 ++ g1.filter keepChar) ++ '.' :: fs1, c ≠ '=' := by
    intro c hc
    rcases List.mem_append.mp hc with hc | hc
    · exact digit_ne_eq_sign (hstrip1.2 c hc)
    · rcases List.mem_cons.mp hc with he | hc2
      · rw [he]; decide
      · exact digit_ne_eq_sign (hfs1 c hc2)
  have hA2ne : ∀ c ∈ (ds2 ++ g2.filter keepChar) ++ '.' :: fs2, c ≠ '=' := by
    intro c hc
    rcases List.mem_append.mp hc with hc | hc
    · exact digit_ne_eq_sign (hstrip2.2 c hc)
    · rcases List.mem_cons.mp hc with he | hc2
      · rw [he]; decide
      · exact digit_ne_eq_sign (hfs2 c hc2)
  have hxs1ne : ds1 ++ g1.filter keepChar ≠ [] := by
    intro hnil
    rcases List.append_eq_nil.mp hnil with ⟨h1, _⟩
    exact hds1ne h1
  have hxs2ne : ds2 ++ g2.filter keepChar ≠ [] := by
    intro hnil
    rcases List.append_eq_nil.mp hnil with ⟨h1, _⟩
    exact hds2ne h1
  refine ⟨(ds1 ++ g1.filter keepChar) ++ '.' :: fs1,
    (ds2 ++ g2.filter keepChar) ++ '.' :: fs2,
    (digitsToNat (ds1 ++ g1.filter keepChar) : ℚ) +
      (digitsToNat fs1 : ℚ) / 10 ^ fs1.length,
    (digitsToNat (ds2 ++ g2.filter keepChar) : ℚ) +
      (digitsToNat fs2 : ℚ) / 10 ^ fs2.length, ?_, ?_, ?_⟩
  · rw [hskm, splitEqL_append hA1ne, splitEqL_no_eq hA2ne]
  · exact pyFloatCore_digit_dot hxs1ne hfs1ne hstrip1.2 hfs1
  · exact pyFloatCore_digit_dot hxs2ne hfs2ne hstrip2.2 hfs2

lemma regexSearch_matchAt : ∀ {cs m : List Char},
    regexSearch cs = some m → ∃ cs', matchAt cs' = some m := by
  intro cs
  induction cs with
  | nil =>
    intro m h
    rw [show regexSearch ([] : List Char) = none from by decide] at h
    exact Option.noConfusion h
  | cons x t ih =>
    intro m h
    simp only [regexSearch] at h
    rcases hma : matchAt (x :: t) with _ | m'
    · simp only [hma] at h
      exact ih h
    · simp only [hma, Option.some.injEq] at h
      exact ⟨x :: t, by rw [hma, h]⟩

lemma regexSearch_parts {cs m : List Char} (h : regexSearch cs = some m) :
    ∃ a1 a2 : List Char, ∃ v1 v2 : ℚ,
      splitEqL (stripKeep m) = [a1, a2] ∧
      pyFloatCore a1 = some v1 ∧ pyFloatCore a2 = some v2 := by
  obtain ⟨cs', hma⟩ := regexSearch_matchAt h
  exact matchAt_parts hma

lemma parse_XE_rates_eval {s : String} {m a1 a2 : List Char} {fa ta : ℚ}
    (hm : regexSearch s.data = some m)
    (hsplit : splitEqL (stripKeep m) = [a1, a2])
    (hfa : pyFloatCore a1 = some fa) (hta : pyFloatCore a2 = some ta) :
    parse_XE_rates s =
      if fa ≤ 0 then
        Except.error "Failed to parse exchange rate: Source amount must be greater than 0"
      else Except.ok (pyRound (ta / fa) 7) := by
  have hne : s.data.isEmpty = false := by
    rcases hd : s.data with _ | ⟨c, t⟩
    · rw [hd] at hm
      rw [show regexSearch ([] : List Char) = none from by decide] at hm
      exact Option.noConfusion hm
    · rfl
  simp only [parse_XE_rates, hne, Bool.false_eq_true, if_false, hm, hsplit,
    hfa, hta]

/-! ## Claims about the rate extractor and the orchestrator -/

/-- C1 (amended): whenever the cleaned page text contains a substring of
the shape `amount words = amount words` — i.e. the search succeeds — and
the `from` amount read from the first match (after stripping every
character but digits, `.` and `=`, and splitting on `=`) is positive,
`parse_XE_rates` returns `round(to/from, 7)`; commas are removed by the
stripping step, so thousands separators are tolerated. -/
theorem claim1_rate_from_first_match (s : String) (m a1 a2 : List Char)
    (fa ta : ℚ)
    (hm : regexSearch s.data = some m)
    (hsplit : splitEqL (stripKeep m) = [a1, a2])
    (hfa : pyFloatCore a1 = some fa)
    (hta : pyFloatCore a2 = some ta)
    (hpos : 0 < fa) :
    parse_XE_rates s = Except.ok (pyRound (ta / fa) 7) := by
  rw [parse_XE_rates_eval hm hsplit hfa hta, if_neg (not_le.mpr hpos)]

/-- C1 counterexample: the page text `"0.00 US Dollar = 0.92 Euro"` is
matched by the search (its cleaned form has the claimed shape), yet
`parse_XE_rates` raises instead of returning `round(0.92/0.00, 7)`: the
claim as stated fails when the source amount parses to zero. -/
theorem claim1_counterexample :
    regexSearch ("0.00 US Dollar = 0.92 Euro").data =
      some ("0.00 US Dollar = 0.92 Euro").data
    ∧ parse_XE_rates "0.00 US Dollar = 0.92 Euro" =
      Except.error "Failed to parse exchange rate: Source amount must be greater than 0" := by
  exact ⟨by decide, by decide⟩

/-- Witness for C1 at the spec's example page text and at a text with a
thousands separator (read as `1234.56`, giving the exact rate `1/2`). -/
theorem claim1_rate_from_first_match_witness :
    parse_XE_rates "1.00 US Dollar = 0.92 Euro" =
      Except.ok (pyRound ((23 / 25) / 1) 7)
    ∧ parse_XE_rates "1,234.56 US Dollars = 617.28 Euro" =
      Except.ok (pyRound ((15432 / 25) / (30864 / 25)) 7) := by
  constructor
  · exact claim1_rate_from_first_match "1.00 US Dollar = 0.92 Euro"
      ("1.00 US Dollar = 0.92 Euro").data "1.00".data "0.92".data 1 (23 / 25)
      (by decide) (by decide) (by decide) (by decide) (by norm_num)
  · exact claim1_rate_from_first_match "1,234.56 US Dollars = 617.28 Euro"
      ("1,234.56 US Dollars = 617.28 Euro").data "1234.56".data "617.28".data
      (30864 / 25) (15432 / 25)
      (by decide) (by decide) (by decide) (by decide) (by norm_num)

/-- C4: `parse_XE_rates` fails exactly when no rate can be derived — the
cleaned text is empty, the pattern does not match, splitting the stripped
match on `=` does not give exactly two parts, or the parsed source amount
is not positive.  (The split always yields two float-parseable parts for
any match, so the third condition never fires and a float-conversion
failure is unreachable.)  The second conjunct is the spec's example: a
text with no numbers fails. -/
theorem claim4_failure_conditions :
    (∀ s : String,
      (∃ e, parse_XE_rates s = Except.error e) ↔
        s.data.isEmpty = true
        ∨ regexSearch s.data = none
        ∨ (∃ m, regexSearch s.data = some m ∧
            (splitEqL (stripKeep m)).length ≠ 2)
        ∨ (∃ m a1 a2 fa, regexSearch s.data = some m ∧
            splitEqL (stripKeep m) = [a1, a2] ∧
            pyFloatCore a1 = some fa ∧ fa ≤ 0))
    ∧ parse_XE_rates "no numbers here" =
        Except.error "Failed to parse exchange rate: Could not find currency amounts in the text" := by
  constructor
  · intro s
    constructor
    · rintro ⟨e, he⟩
      by_cases hemp : s.data.isEmpty = true
      · exact Or.inl hemp
      · rcases hreg : regexSearch s.data with _ | m
        · exact Or.inr (Or.inl rfl)
        · obtain ⟨a1, a2, v1, v2, hsplit, hv1, hv2⟩ := regexSearch_parts hreg
          by_cases hle : v1 ≤ 0
          · exact Or.inr (Or.inr (Or.inr ⟨m, a1, a2, v1, rfl, hsplit, hv1, hle⟩))
          · exfalso
            have hok := parse_XE_rates_eval hreg hsplit hv1 hv2
            rw [if_neg hle] at hok
            rw [hok] at he
            exact Except.noConfusion he
    · intro hcond
      rcases hcond with hemp | hreg | ⟨m, hreg, hlen⟩ | ⟨m, a1, a2, fa, hreg, hsplit, hfa, hle⟩
      · exact ⟨"Failed to parse exchange rate: Failed to extract clean text from HTML",
          by simp only [parse_XE_rates, hemp, if_true]⟩
      · by_cases hemp : s.data.isEmpty = true
        · exact ⟨"Failed to parse exchange rate: Failed to extract clean text from HTML",
            by simp only [parse_XE_rates, hemp, if_true]⟩
        · have hne : s.data.isEmpty = false := Bool.eq_false_iff.mpr hemp
          exact ⟨"Failed to parse exchange rate: Could not find currency amounts in the text",
            by simp only [parse_XE_rates, hne, Bool.false_eq_true, if_false, hreg]⟩
      · obtain ⟨a1, a2, v1, v2, hsplit, hv1, hv2⟩ := regexSearch_parts hreg
        rw [hsplit] at hlen
        exact absurd rfl hlen
      · obtain ⟨a1', a2', v1, v2, hsplit', hv1', hv2'⟩ := regexSearch_parts hreg
        rw [hsplit] at hsplit'
        injection hsplit' with he1 hrest
        injection hrest with he2 hnil
        rw [← he1] at hv1'
        rw [hv1'] at hfa
        injection hfa with hfa2
        rw [← he2] at hv2'
        refine ⟨"Failed to parse exchange rate: Source amount must be greater than 0", ?_⟩
        rw [parse_XE_rates_eval hreg hsplit hv1' hv2', if_pos (hfa2 ▸ hle)]
  · decide

/-- C3 (amended): given a successful image download, the orchestrator
appends the forward rate and its reciprocal (each to 7 decimals) exactly
when rate extraction succeeds with a strictly positive rate; when
extraction fails with the rate-parse error — or yields a non-positive
rate — the two lines are skipped and the call still returns a valid
`(image_bytes, caption)` pair without raising. -/
theorem claim3_caption_rate_lines (from_c to_c : String) (amount adj : ℚ)
    (html ts : String) (bs : List Nat) :
    (∀ r : ℚ, parse_XE_rates html = Except.ok r → 0 < r →
      fetch_XE_rates from_c to_c amount adj html ts (some bs) =
        Except.ok (bs, captionBase from_c to_c amount adj ts ++
          rateLines from_c to_c r))
    ∧ (∀ r : ℚ, parse_XE_rates html = Except.ok r → r ≤ 0 →
      fetch_XE_rates from_c to_c amount adj html ts (some bs) =
        Except.ok (bs, captionBase from_c to_c amount adj ts))
    ∧ (∀ e : String, parse_XE_rates html = Except.error e →
      fetch_XE_rates from_c to_c amount adj html ts (some bs) =
        Except.ok (bs, captionBase from_c to_c amount adj ts)) := by
  refine ⟨?_, ?_, ?_⟩
  · intro r hp hpos
    simp only [fetch_XE_rates, hp, if_pos hpos]
  · intro r hp hnonpos
    simp only [fetch_XE_rates, hp, if_neg (not_lt.mpr hnonpos)]
  · intro e hp
    simp only [fetch_XE_rates, hp]

/-- C3 counterexample: on the page text `"1.00 US Dollar = 0.00 Euro"`
rate extraction succeeds (returning 0), yet the returned caption carries
no appended rate lines — refuting the claim that success always appends
them. -/
theorem claim3_counterexample :
    parse_XE_rates "1.00 US Dollar = 0.00 Euro" = Except.ok 0
    ∧ fetch_XE_rates "USD" "EUR" 100 1 "1.00 US Dollar = 0.00 Euro"
        "12:00 UTC, 01-01-2026" (some [0]) =
      Except.ok ([0], captionBase "USD" "EUR" 100 1 "12:00 UTC, 01-01-2026")
    ∧ captionBase "USD" "EUR" 100 1 "12:00 UTC, 01-01-2026" ≠
      captionBase "USD" "EUR" 100 1 "12:00 UTC, 01-01-2026" ++
        rateLines "USD" "EUR" 0 := by
  exact ⟨by decide, by decide, by decide⟩

/-- Witness for C3: with the image download succeeding, a page text with
rate `0.92` gets the two rate lines and a page text with no `=` pattern
still yields a valid pair without rate lines. -/
theorem claim3_caption_rate_lines_witness :
    fetch_XE_rates "USD" "EUR" 100 1 "1.00 US Dollar = 0.92 Euro"
        "12:00 UTC, 01-01-2026" (some [7]) =
      Except.ok ([7], captionBase "USD" "EUR" 100 1 "12:00 UTC, 01-01-2026" ++
        rateLines "USD" "EUR" (23 / 25))
    ∧ fetch_XE_rates "USD" "EUR" 100 1 "no rates" "12:00 UTC, 01-01-2026"
        (some [7]) =
      Except.ok ([7], captionBase "USD" "EUR" 100 1 "12:00 UTC, 01-01-2026") := by
  constructor
  · exact (claim3_caption_rate_lines "USD" "EUR" 100 1
      "1.00 US Dollar = 0.92 Euro" "12:00 UTC, 01-01-2026" [7]).1 (23 / 25)
      (by decide) (by norm_num)
  · exact (claim3_caption_rate_lines "USD" "EUR" 100 1 "no rates"
      "12:00 UTC, 01-01-2026" [7]).2.2
      "Failed to parse exchange rate: Could not find currency amounts in the text"
      (by decide)

/-- Witness for C4 at the empty cleaned text. -/
theorem claim4_failure_conditions_witness :
    ∃ e, parse_XE_rates "" = Except.error e :=
  (claim4_failure_conditions.1 "").mpr (Or.inl (by decide))
